import Mathlib

/-!
Verification of the customer-facing offer-copy generation service.

The development shallowly embeds the core of the service:

* the response-text normalizer (markdown fence stripping) and JSON decoding
  used by `processOffer`;
* the zod schemas `offerCopySchema`, `offerInputSchema` and
  `offerRequestBodySchema` as functions from parsed JSON documents to
  validated records;
* `processOffer` itself, parameterized over the external generation service
  (the prompt-builder text is a collaborator concern and is likewise a
  parameter), instrumented so that the list of external calls it performs is
  part of its result;
* the bounded-concurrency scheduler `mapWithConcurrency` as a small-step
  transition system over worker phases (the single-threaded event loop makes
  the claim of an index atomic; an awaited task completes at a later step);
* the POST /generate handler wiring validation, scheduler outcome and the
  HTTP answer together.
-/

/-! ## JavaScript whitespace and trimming -/

/-- The character class matched by \s in a JavaScript regular expression,
which is also the set stripped by String.prototype.trim. -/
def isJsWs (c : Char) : Bool :=
  c = ' ' || c = '\t' || c = '\n' || c = '\r' ||
  c.val = 11 || c.val = 12 || c.val = 0xa0 || c.val = 0x1680 ||
  (0x2000 ≤ c.val && c.val ≤ 0x200a) ||
  c.val = 0x2028 || c.val = 0x2029 || c.val = 0x202f ||
  c.val = 0x205f || c.val = 0x3000 || c.val = 0xfeff

def trimLeftChars (l : List Char) : List Char := l.dropWhile isJsWs

def trimRightChars (l : List Char) : List Char :=
  (l.reverse.dropWhile isJsWs).reverse

def jsTrimChars (l : List Char) : List Char := trimLeftChars (trimRightChars l)

/-- String.prototype.trim. -/
def jsTrim (s : String) : String := String.mk (jsTrimChars s.data)

/-! ## Markdown fence stripping (the two regex replaces in processOffer) -/

def fenceChars : List Char := ['`', '`', '`']

/-- One step of text.replace(leading fence regex, '') : if the text starts
with three backticks, drop them, then drop a case-insensitive json tag if
present, then drop following whitespace. Anchored, so nothing happens when
the text does not begin with the fence. -/
def replaceStartFence (l : List Char) : List Char :=
  if fenceChars.isPrefixOf l then
    let r := l.drop 3
    let r := if (r.take 4).map Char.toLower = ['j', 's', 'o', 'n'] then r.drop 4 else r
    trimLeftChars r
  else l

/-- One step of text.replace(trailing fence regex, '') : the leftmost match
of whitespace-fence-whitespace-end exists exactly when the right-trimmed text
ends in three backticks, and removing it removes those backticks together
with the whitespace around them. -/
def replaceEndFence (l : List Char) : List Char :=
  let t := trimRightChars l
  if fenceChars.isSuffixOf t then trimRightChars (t.dropLast.dropLast.dropLast) else l

/-- The cleaning pipeline applied to the model response before JSON.parse:
strip a leading fence, strip a trailing fence, trim. -/
def cleanResponse (s : String) : String :=
  String.mk (jsTrimChars (replaceEndFence (replaceStartFence s.data)))

/-- Model output wrapped in a json-tagged fenced code block. -/
def wrapFenceJson (t : String) : String := "```json\n" ++ t ++ "\n```"

/-- Model output wrapped in an untagged fenced code block. -/
def wrapFence (t : String) : String := "```\n" ++ t ++ "\n```"

/-! ## JSON values and JSON.parse -/

/-- A parsed JSON document. Numbers keep their source token: the service
never computes with a numeric field, it only inspects types. -/
inductive JValue where
  | null
  | bool (b : Bool)
  | num (raw : String)
  | str (s : String)
  | arr (xs : List JValue)
  | obj (fields : List (String × JValue))
deriving Repr, BEq

def lbraceC : Char := Char.ofNat 123

def rbraceC : Char := Char.ofNat 125

/-- JSON insignificant whitespace. -/
def jsonWs (c : Char) : Bool := c = ' ' || c = '\t' || c = '\n' || c = '\r'

def skipWs (l : List Char) : List Char := l.dropWhile jsonWs

def isHexC (c : Char) : Bool :=
  c.isDigit || ('a' ≤ c && c ≤ 'f') || ('A' ≤ c && c ≤ 'F')

def hexValC (c : Char) : Nat :=
  if c.isDigit then c.toNat - 48
  else if 'a' ≤ c then c.toNat - 87
  else c.toNat - 55

/-- Parse the remainder of a JSON string literal (the opening quote already
consumed), handling the escape sequences JSON.parse accepts. -/
def parseJStr : Nat → List Char → List Char → Option (String × List Char)
  | 0, _, _ => none
  | _, [], _ => none
  | fuel + 1, c :: rest, acc =>
    if c = '"' then some (String.mk acc.reverse, rest)
    else if c = '\\' then
      match rest with
      | [] => none
      | e :: rest2 =>
        if e = '"' then parseJStr fuel rest2 ('"' :: acc)
        else if e = '\\' then parseJStr fuel rest2 ('\\' :: acc)
        else if e = '/' then parseJStr fuel rest2 ('/' :: acc)
        else if e = 'b' then parseJStr fuel rest2 (Char.ofNat 8 :: acc)
        else if e = 'f' then parseJStr fuel rest2 (Char.ofNat 12 :: acc)
        else if e = 'n' then parseJStr fuel rest2 ('\n' :: acc)
        else if e = 'r' then parseJStr fuel rest2 ('\r' :: acc)
        else if e = 't' then parseJStr fuel rest2 ('\t' :: acc)
        else if e = 'u' then
          match rest2 with
          | h1 :: h2 :: h3 :: h4 :: rest3 =>
            if isHexC h1 && isHexC h2 && isHexC h3 && isHexC h4 then
              let v := ((hexValC h1 * 16 + hexValC h2) * 16 + hexValC h3) * 16 + hexValC h4
              parseJStr fuel rest3 (Char.ofNat v :: acc)
            else none
          | _ => none
        else none
    else if c.toNat < 32 then none
    else parseJStr fuel rest (c :: acc)

/-- Greedy run of decimal digits, at least one. -/
def parseDigits1 (l : List Char) : Option (List Char × List Char) :=
  match l.span Char.isDigit with
  | ([], _) => none
  | (ds, r) => some (ds, r)

/-- A JSON number token: optional minus, integer part with no leading zero,
optional fraction, optional exponent. Returns the raw token. -/
def parseJNum (l : List Char) : Option (String × List Char) := do
  let (neg, l1) := match l with
    | '-' :: r => (['-'], r)
    | _ => (([] : List Char), l)
  let (ip, l2) ← match l1 with
    | '0' :: r => some ((['0'] : List Char), r)
    | c :: _ =>
      if c.isDigit then parseDigits1 l1 else none
    | [] => none
  let (fp, l3) ← match l2 with
    | '.' :: r =>
      match parseDigits1 r with
      | some (ds, r2) => some ('.' :: ds, r2)
      | none => none
    | _ => some (([] : List Char), l2)
  let (ep, l4) ← match l3 with
    | c :: r =>
      if c = 'e' || c = 'E' then
        match r with
        | s :: r2 =>
          if s = '+' || s = '-' then
            match parseDigits1 r2 with
            | some (ds, r3) => some (c :: s :: ds, r3)
            | none => none
          else
            match parseDigits1 r with
            | some (ds, r3) => some (c :: ds, r3)
            | none => none
        | [] => none
      else some (([] : List Char), l3)
    | [] => some (([] : List Char), l3)
  some (String.mk (neg ++ ip ++ fp ++ ep), l4)

mutual

/-- Parse one JSON value, whitespace allowed before it. -/
def parseJVal : Nat → List Char → Option (JValue × List Char)
  | 0, _ => none
  | fuel + 1, l =>
    match skipWs l with
    | [] => none
    | c :: rest =>
      if c = '"' then
        match parseJStr (rest.length + 1) rest [] with
        | some (s, r) => some (JValue.str s, r)
        | none => none
      else if c = '[' then parseJArrItems fuel rest true
      else if c = lbraceC then parseJObjItems fuel rest true
      else if c = 't' then
        match rest with
        | 'r' :: 'u' :: 'e' :: r => some (JValue.bool true, r)
        | _ => none
      else if c = 'f' then
        match rest with
        | 'a' :: 'l' :: 's' :: 'e' :: r => some (JValue.bool false, r)
        | _ => none
      else if c = 'n' then
        match rest with
        | 'u' :: 'l' :: 'l' :: r => some (JValue.null, r)
        | _ => none
      else
        match parseJNum (c :: rest) with
        | some (s, r) => some (JValue.num s, r)
        | none => none

/-- Parse the items of a JSON array, the opening bracket already consumed.
The flag marks whether we are before the first item (so that a closing
bracket is still allowed). -/
def parseJArrItems : Nat → List Char → Bool → Option (JValue × List Char)
  | 0, _, _ => none
  | fuel + 1, l, first => Id.run do
    let l1 := skipWs l
    if first then
      match l1 with
      | ']' :: r => return some (JValue.arr [], r)
      | _ => pure ()
    match parseJVal fuel l with
    | none => return none
    | some (v, r) =>
      match skipWs r with
      | ',' :: r2 =>
        match parseJArrItems fuel r2 false with
        | some (JValue.arr xs, r3) => return some (JValue.arr (v :: xs), r3)
        | _ => return none
      | ']' :: r2 => return some (JValue.arr [v], r2)
      | _ => return none

/-- Parse the members of a JSON object, the opening brace already consumed. -/
def parseJObjItems : Nat → List Char → Bool → Option (JValue × List Char)
  | 0, _, _ => none
  | fuel + 1, l, first => Id.run do
    let l1 := skipWs l
    if first then
      if l1.head? = some rbraceC then
        return some (JValue.obj [], l1.tail)
    match l1 with
    | '"' :: r =>
      match parseJStr (r.length + 1) r [] with
      | none => return none
      | some (k, r2) =>
        match skipWs r2 with
        | ':' :: r3 =>
          match parseJVal fuel r3 with
          | none => return none
          | some (v, r4) =>
            match skipWs r4 with
            | ',' :: r5 =>
              match parseJObjItems fuel r5 false with
              | some (JValue.obj fs, r6) => return some (JValue.obj ((k, v) :: fs), r6)
              | _ => return none
            | c :: r5 =>
              if c = rbraceC then return some (JValue.obj [(k, v)], r5) else return none
            | _ => return none
        | _ => return none
    | _ => return none

end

/-- JSON.parse: one value and nothing but whitespace after it. -/
def parseJson (s : String) : Option JValue :=
  match parseJVal (s.length + 1) s.data with
  | some (v, rest) => if skipWs rest = [] then some v else none
  | none => none

/-! ## Offer types and zod schemas -/

/-- The fixed closed set of offer categories (OFFER_TYPES in
offer-guidelines.ts). -/
inductive OfferType where
  | discount
  | bundle
  | limitedTime
  | loyalty
  | freeTrial
  | referral
  | seasonal
  | clearance
deriving Repr, DecidableEq

/-- The wire tag of each offer type. -/
def OfferType.tag : OfferType → String
  | .discount => "discount"
  | .bundle => "bundle"
  | .limitedTime => "limited-time"
  | .loyalty => "loyalty"
  | .freeTrial => "free-trial"
  | .referral => "referral"
  | .seasonal => "seasonal"
  | .clearance => "clearance"

/-- OFFER_TYPES as the list of wire tags. -/
def OFFER_TYPES : List String :=
  ["discount", "bundle", "limited-time", "loyalty", "free-trial",
   "referral", "seasonal", "clearance"]

/-- z.enum(OFFER_TYPES): a string is accepted exactly when it is one of the
eight tags. -/
def parseOfferType (s : String) : Option OfferType :=
  if s = "discount" then some .discount
  else if s = "bundle" then some .bundle
  else if s = "limited-time" then some .limitedTime
  else if s = "loyalty" then some .loyalty
  else if s = "free-trial" then some .freeTrial
  else if s = "referral" then some .referral
  else if s = "seasonal" then some .seasonal
  else if s = "clearance" then some .clearance
  else none

/-- A validated offer input (OfferInput): existingCopy is absent or a
string. -/
structure OfferInput where
  offerType : OfferType
  offerDescription : String
  existingCopy : Option String
deriving Repr, DecidableEq

/-- The validated structured copy record (OfferCopy); the two nullable
fields are none exactly when the document holds an explicit null. -/
structure OfferCopy where
  headline : String
  subheadline : Option String
  body : String
  callToAction : String
  legalDisclaimer : Option String
deriving Repr, DecidableEq

/-- Reading a field of a parsed JavaScript object: JSON.parse keeps the last
of duplicate keys, so lookup takes the last occurrence. -/
def lookupLast (key : String) : List (String × JValue) → Option JValue
  | [] => none
  | (k, v) :: rest =>
    match lookupLast key rest with
    | some r => some r
    | none => if k = key then some v else none

/-- z.string(): present string values only. -/
def asString : JValue → Option String
  | .str s => some s
  | _ => none

/-- z.string().nullable(): a string or an explicit null. -/
def asNullableString : JValue → Option (Option String)
  | .str s => some (some s)
  | .null => some none
  | _ => none

/-- offerCopySchema.parse on a parsed document. zod objects are in strip
mode: the five declared fields are checked, unknown keys are dropped rather
than rejected, and each declared field must be present with the declared
type (null allowed only for the two nullable fields). -/
def offerCopySchema (j : JValue) : Option OfferCopy :=
  match j with
  | .obj fields =>
    match lookupLast "headline" fields with
    | some hv =>
      match asString hv with
      | some h =>
        match lookupLast "subheadline" fields with
        | some shv =>
          match asNullableString shv with
          | some sh =>
            match lookupLast "body" fields with
            | some bv =>
              match asString bv with
              | some b =>
                match lookupLast "callToAction" fields with
                | some cv =>
                  match asString cv with
                  | some cta =>
                    match lookupLast "legalDisclaimer" fields with
                    | some lv =>
                      match asNullableString lv with
                      | some ld => some ⟨h, sh, b, cta, ld⟩
                      | none => none
                    | none => none
                  | none => none
                | none => none
              | none => none
            | none => none
          | none => none
        | none => none
      | none => none
    | none => none
  | _ => none

/-- offerInputSchema.parse on a parsed document: offerType from the closed
enum, offerDescription a string of length 1..2000, existingCopy optional but
when present a string of length at most 5000. -/
def offerInputSchema (j : JValue) : Option OfferInput :=
  match j with
  | .obj fields =>
    match lookupLast "offerType" fields with
    | some (.str ts) =>
      match parseOfferType ts with
      | some ot =>
        match lookupLast "offerDescription" fields with
        | some (.str d) =>
          if 1 ≤ d.length ∧ d.length ≤ 2000 then
            match lookupLast "existingCopy" fields with
            | none => some ⟨ot, d, none⟩
            | some (.str ec) =>
              if ec.length ≤ 5000 then some ⟨ot, d, some ec⟩ else none
            | some _ => none
          else none
        | _ => none
      | none => none
    | _ => none
  | _ => none

/-- offerRequestBodySchema.parse: an object with an offers array of 1 to 50
valid offer inputs. -/
def offerRequestBodySchema (j : JValue) : Option (List OfferInput) :=
  match j with
  | .obj fields =>
    match lookupLast "offers" fields with
    | some (.arr xs) =>
      match xs.mapM offerInputSchema with
      | some offers =>
        if 1 ≤ offers.length ∧ offers.length ≤ 50 then some offers else none
      | none => none
    | _ => none
  | _ => none

/-! ## The deadline-bound executor and decoder (processOffer) -/

/-- Maximum wall-clock time allowed per individual offer (ms). -/
def PER_OFFER_TIMEOUT_MS : Nat := 5000

/-- Maximum number of offers processed concurrently in a batch. -/
def BATCH_CONCURRENCY : Int := 10

/-- One invocation of the external generation service: the system prompt,
the user prompt, and the abort deadline attached to the call. -/
structure GenCall where
  system : String
  prompt : String
  timeoutMs : Nat
deriving Repr, DecidableEq

/-- What the external service does with one call: produce text, exceed the
deadline, or fail otherwise. -/
inductive GenOutcome where
  | text (t : String)
  | timedOut
  | failed (msg : String)
deriving Repr, DecidableEq

/-- How one offer task can fail (each variant is terminal; there is no
retry). -/
inductive TaskError where
  | timeout
  | genFailure (msg : String)
  | invalidJson (msg : String)
  | schemaViolation
deriving Repr, DecidableEq

/-- The distinction between a parse failure and a schema-validation failure
surfaced by decoding. -/
inductive DecodeFailure where
  | invalidJson (msg : String)
  | schemaViolation
deriving Repr, DecidableEq

/-- Mode tag of a task result. -/
inductive Mode where
  | generated
  | modified
deriving Repr, DecidableEq

/-- A completed task result (OfferResult). -/
structure OfferResult where
  offerType : OfferType
  offerDescription : String
  mode : Mode
  copy : OfferCopy
  processingTimeMs : Nat
deriving Repr, DecidableEq

/-- JavaScript truthiness of the optional existingCopy field: present and a
non-empty string. -/
def existingCopyTruthy (o : OfferInput) : Bool :=
  match o.existingCopy with
  | some s => decide (s ≠ "")
  | none => false

/-- The user prompt composed by processOffer: revise-framing when
existingCopy is truthy, generate-framing otherwise. -/
def buildUserPrompt (o : OfferInput) : String :=
  if existingCopyTruthy o then
    String.intercalate "\n"
      ["OFFER DESCRIPTION:", o.offerDescription, "",
       "EXISTING COPY TO MODIFY:", o.existingCopy.getD "", "",
       "Please revise the existing copy to better follow the guidelines while preserving the original intent."]
  else
    String.intercalate "\n"
      ["OFFER DESCRIPTION:", o.offerDescription, "",
       "Please generate new customer-facing copy for this offer."]

/-- Decode the raw response text of one offer: strip fences, JSON.parse
(parse failure carries the bounded excerpts of the raw text and of the
originating description), then validate against offerCopySchema. -/
def decodeModelText (t : String) (desc : String) : Except DecodeFailure OfferCopy :=
  match parseJson (cleanResponse t) with
  | none =>
    .error (.invalidJson
      ("Model returned invalid JSON for offer \"" ++ desc.take 60 ++ "…\": " ++ t.take 200))
  | some j =>
    match offerCopySchema j with
    | none => .error .schemaViolation
    | some c => .ok c

/-- The single external call processOffer makes for an offer. The system
prompt builder is the collaborator buildOfferSystemPrompt; the fixed
per-offer deadline is attached to the call. -/
def offerCall (buildSys : OfferType → String) (o : OfferInput) : GenCall :=
  ⟨buildSys o.offerType, buildUserPrompt o, PER_OFFER_TIMEOUT_MS⟩

/-- processOffer: build prompts, invoke the generation service once under
the fixed deadline, decode and validate the response, and assemble the
result with the mode tag and the measured duration. The returned list is
the trace of external calls performed, which the source performs inline via
generateText. -/
def processOffer (buildSys : OfferType → String) (gen : GenCall → GenOutcome)
    (elapsedMs : Nat) (o : OfferInput) :
    Except TaskError OfferResult × List GenCall :=
  let call := offerCall buildSys o
  match gen call with
  | .timedOut => (.error .timeout, [call])
  | .failed m => (.error (.genFailure m), [call])
  | .text t =>
    match decodeModelText t o.offerDescription with
    | .error (.invalidJson m) => (.error (.invalidJson m), [call])
    | .error .schemaViolation => (.error .schemaViolation, [call])
    | .ok c =>
      (.ok ⟨o.offerType, o.offerDescription,
            if existingCopyTruthy o then .modified else .generated,
            c, elapsedMs⟩, [call])

/-! ## The bounded-concurrency scheduler (mapWithConcurrency)

The source runs min(concurrency, items.length) copies of an async worker
loop over a shared cursor and a shared results array, then awaits
Promise.all. On the single-threaded event loop the check of the loop
condition and the claim of the cursor value form one atomic segment, while
the awaited task of a claimed index completes at some later turn. We model
this as a transition system: a worker is idle (about to test the loop
condition), running a claimed index, exited (loop condition failed), or
failed (its awaited task rejected, which will reject Promise.all). -/

/-- The phase of one worker of mapWithConcurrency. -/
inductive WPhase (E R : Type) where
  | idle
  | running (i : Nat)
  | exited
  | failed (e : E)
deriving Repr, DecidableEq

/-- The shared state of one mapWithConcurrency invocation: the claim
cursor, the worker pool, and the results buffer (a slot is none until its
claimed task completes). -/
structure SchedState (E R : Type) where
  nextIndex : Nat
  workers : List (WPhase E R)
  results : List (Option R)
deriving Repr, DecidableEq

/-- The number of workers launched: Array.from with length
Math.min(concurrency, items.length), whose length is clamped to zero when
negative. -/
def numWorkers (k : Int) (n : Nat) : Nat := (min k (n : Int)).toNat

/-- The state right after launching the workers. -/
def initState {E R T : Type} (items : List T) (k : Int) : SchedState E R :=
  ⟨0, List.replicate (numWorkers k items.length) .idle,
   List.replicate items.length none⟩

/-- One event-loop turn of a mapWithConcurrency run over the given items
and per-index task function. -/
inductive SchedStep {T E R : Type} (items : List T) (fn : T → Nat → Except E R) :
    SchedState E R → SchedState E R → Prop where
  | claim (s : SchedState E R) (w : Nat)
      (hw : s.workers[w]? = some .idle)
      (h : s.nextIndex < items.length) :
      SchedStep items fn s
        ⟨s.nextIndex + 1, s.workers.set w (.running s.nextIndex), s.results⟩
  | exit (s : SchedState E R) (w : Nat)
      (hw : s.workers[w]? = some .idle)
      (h : items.length ≤ s.nextIndex) :
      SchedStep items fn s ⟨s.nextIndex, s.workers.set w .exited, s.results⟩
  | completeOk (s : SchedState E R) (w i : Nat) (a : T) (r : R)
      (hw : s.workers[w]? = some (.running i))
      (ha : items[i]? = some a)
      (hr : fn a i = .ok r) :
      SchedStep items fn s
        ⟨s.nextIndex, s.workers.set w .idle, s.results.set i (some r)⟩
  | completeErr (s : SchedState E R) (w i : Nat) (a : T) (e : E)
      (hw : s.workers[w]? = some (.running i))
      (ha : items[i]? = some a)
      (hr : fn a i = .error e) :
      SchedStep items fn s ⟨s.nextIndex, s.workers.set w (.failed e), s.results⟩

/-- The states one mapWithConcurrency invocation can reach. -/
def SchedReach {T E R : Type} (items : List T) (fn : T → Nat → Except E R)
    (k : Int) (s : SchedState E R) : Prop :=
  Relation.ReflTransGen (SchedStep items fn) (initState items k) s

def WPhase.isExited {E R : Type} : WPhase E R → Bool
  | .exited => true
  | _ => false

def WPhase.isRunningP {E R : Type} : WPhase E R → Bool
  | .running _ => true
  | _ => false

/-- Promise.all has resolved: every launched worker's loop has ended. -/
def AllExited {E R : Type} (s : SchedState E R) : Prop :=
  s.workers.all WPhase.isExited = true

/-- How many task invocations are in flight at this instant. -/
def inFlight {E R : Type} (s : SchedState E R) : Nat :=
  s.workers.countP (fun p => WPhase.isRunningP p)

/-- The first rejection observed among the workers, if any. -/
def firstFailure {E R : Type} (s : SchedState E R) : Option E :=
  s.workers.findSome? (fun p => match p with
    | .failed e => some e
    | _ => none)

/-- The overall result of awaiting Promise.all at a state where it has
settled: the results buffer once every worker exited, or the rejection of a
failed worker. States where Promise.all is still pending give none. -/
def schedOutcome {E R : Type} (s : SchedState E R) : Option (Except E (List (Option R))) :=
  if s.workers.all WPhase.isExited then some (.ok s.results)
  else
    match firstFailure s with
    | some e => some (.error e)
    | none => none

/-! ## The batch controller (POST /api/offers/generate) -/

/-- The aggregate response of a successful batch (OfferResponse). The
results buffer is returned as built by the scheduler. -/
structure OfferResponse where
  results : List (Option OfferResult)
  totalProcessingTimeMs : Nat
deriving Repr, DecidableEq

/-- What the route handler can answer: the bad-request rejection produced
when offerRequestBodySchema.parse throws, the 500 failure answer carrying
the propagated message, or the 200 answer with the batch response. -/
inductive ApiResponse where
  | badRequest
  | serverError (message : String)
  | ok (resp : OfferResponse)
deriving Repr, DecidableEq

/-- The catch branch around the scheduler call: a rejection becomes the 500
failure answer for the whole batch, a resolution becomes the 200 answer. -/
def respondFromOutcome (out : Except String (List (Option OfferResult)))
    (totalMs : Nat) : ApiResponse :=
  match out with
  | .error e => .serverError e
  | .ok rs => .ok ⟨rs, totalMs⟩

/-- The POST /generate handler: validate the body shape first and answer
bad-request on failure without consulting the batch runner; otherwise run
the batch and convert its outcome. The batch runner argument stands for the
mapWithConcurrency call over processOffer. -/
def handleGenerate
    (runBatch : List OfferInput → Except String (List (Option OfferResult)))
    (totalMs : Nat) (body : JValue) : ApiResponse :=
  match offerRequestBodySchema body with
  | none => .badRequest
  | some offers => respondFromOutcome (runBatch offers) totalMs

/-! ## Scheduler invariants -/

/-- Reading an updated slot: either we hit the written position (which must
be in bounds) or the list is unchanged at that position. -/
theorem getElem?_set_cases {α : Type} {l : List α} {i j : Nat} {a b : α}
    (h : (l.set i a)[j]? = some b) :
    (i = j ∧ i < l.length ∧ b = a) ∨ (i ≠ j ∧ l[j]? = some b) := by
  rw [List.getElem?_set] at h
  by_cases hij : i = j
  · rw [if_pos hij] at h
    by_cases hlen : i < l.length
    · rw [if_pos hlen] at h
      exact Or.inl ⟨hij, hlen, (Option.some.inj h).symm⟩
    · rw [if_neg hlen] at h
      cases h
  · rw [if_neg hij] at h
    exact Or.inr ⟨hij, h⟩

/-- The inductive invariant of a mapWithConcurrency run. -/
structure SchedInv {T E R : Type} (items : List T) (fn : T → Nat → Except E R)
    (k : Int) (s : SchedState E R) : Prop where
  workersLen : s.workers.length = numWorkers k items.length
  resultsLen : s.results.length = items.length
  cursorLe : s.nextIndex ≤ items.length
  runLt : ∀ (w i : Nat), s.workers[w]? = some (WPhase.running i) → i < s.nextIndex
  claimed : ∀ (i : Nat), i < s.nextIndex →
    (∃ w : Nat, s.workers[w]? = some (WPhase.running i)) ∨
    (∃ a r, items[i]? = some a ∧ fn a i = .ok r ∧ s.results[i]? = some (some r)) ∨
    (∃ (w : Nat) (e : E), s.workers[w]? = some (WPhase.failed e))
  unclaimed : ∀ (i : Nat), s.nextIndex ≤ i → i < items.length → s.results[i]? = some none
  exitedCursor : ∀ (w : Nat), s.workers[w]? = some WPhase.exited → items.length ≤ s.nextIndex
  failedReal : ∀ (w : Nat) (e : E), s.workers[w]? = some (WPhase.failed e) →
    ∃ (i : Nat) (a : T), items[i]? = some a ∧ fn a i = .error e

theorem schedInv_init {T E R : Type} (items : List T) (fn : T → Nat → Except E R)
    (k : Int) : SchedInv items fn k (initState items k (E := E) (R := R)) := by
  refine ⟨?_, ?_, ?_, ?_, ?_, ?_, ?_, ?_⟩
  · simp [initState]
  · simp [initState]
  · simp [initState]
  · intro w i h
    rw [initState] at h
    simp only [List.getElem?_replicate] at h
    split at h <;> simp_all
  · intro i h
    simp [initState] at h
  · intro i _ h
    simp only [initState]
    rw [List.getElem?_replicate]
    simp [h]
  · intro w h
    rw [initState] at h
    simp only [List.getElem?_replicate] at h
    split at h <;> simp_all
  · intro w e h
    rw [initState] at h
    simp only [List.getElem?_replicate] at h
    split at h <;> simp_all

theorem schedInv_step {T E R : Type} {items : List T} {fn : T → Nat → Except E R}
    {k : Int} {s s' : SchedState E R} (hinv : SchedInv items fn k s)
    (hstep : SchedStep items fn s s') : SchedInv items fn k s' := by
  obtain ⟨hwl, hrl, hcl, hrun, hclm, huncl, hexc, hfr⟩ := hinv
  cases hstep with
  | claim w hw h =>
    have hwlt : w < s.workers.length := (List.getElem?_eq_some.mp hw).1
    refine ⟨by simpa using hwl, hrl, h, ?_, ?_, ?_, ?_, ?_⟩
    · intro w' i h'
      rcases getElem?_set_cases h' with ⟨_, _, hb⟩ | ⟨_, hold⟩
      · cases hb; exact Nat.lt_succ_self _
      · exact Nat.lt_succ_of_lt (hrun w' i hold)
    · intro i hi
      rcases Nat.lt_succ_iff_lt_or_eq.mp hi with hi' | hi'
      · rcases hclm i hi' with ⟨w', hw'⟩ | hok | ⟨w', e, hw'⟩
        · left
          refine ⟨w', ?_⟩
          rw [List.getElem?_set]
          split <;> rename_i hww
          · subst hww; rw [hw] at hw'; cases hw'
          · exact hw'
        · right; left; exact hok
        · right; right
          refine ⟨w', e, ?_⟩
          rw [List.getElem?_set]
          split <;> rename_i hww
          · subst hww; rw [hw] at hw'; cases hw'
          · exact hw'
      · subst hi'
        left
        refine ⟨w, ?_⟩
        rw [List.getElem?_set]
        simp [hwlt]
    · intro i hi hin
      exact huncl i (Nat.le_of_succ_le hi) hin
    · intro w' h'
      rcases getElem?_set_cases h' with ⟨_, _, hb⟩ | ⟨_, hold⟩
      · cases hb
      · exact Nat.le_succ_of_le (hexc w' hold)
    · intro w' e h'
      rcases getElem?_set_cases h' with ⟨_, _, hb⟩ | ⟨_, hold⟩
      · cases hb
      · exact hfr w' e hold
  | exit w hw h =>
    refine ⟨by simpa using hwl, hrl, hcl, ?_, ?_, huncl, ?_, ?_⟩
    · intro w' i h'
      rcases getElem?_set_cases h' with ⟨_, _, hb⟩ | ⟨_, hold⟩
      · cases hb
      · exact hrun w' i hold
    · intro i hi
      rcases hclm i hi with ⟨w', hw'⟩ | hok | ⟨w', e, hw'⟩
      · left
        refine ⟨w', ?_⟩
        rw [List.getElem?_set]
        split <;> rename_i hww
        · subst hww; rw [hw] at hw'; cases hw'
        · exact hw'
      · right; left; exact hok
      · right; right
        refine ⟨w', e, ?_⟩
        rw [List.getElem?_set]
        split <;> rename_i hww
        · subst hww; rw [hw] at hw'; cases hw'
        · exact hw'
    · intro w' _
      exact h
    · intro w' e h'
      rcases getElem?_set_cases h' with ⟨_, _, hb⟩ | ⟨_, hold⟩
      · cases hb
      · exact hfr w' e hold
  | completeOk w i a r hw ha hr =>
    have hwlt : w < s.workers.length := (List.getElem?_eq_some.mp hw).1
    have hilt : i < s.nextIndex := hrun w i hw
    have hires : i < s.results.length := by
      rw [hrl]; exact Nat.lt_of_lt_of_le hilt hcl
    refine ⟨by simpa using hwl, by simpa using hrl, hcl, ?_, ?_, ?_, ?_, ?_⟩
    · intro w' j h'
      rcases getElem?_set_cases h' with ⟨_, _, hb⟩ | ⟨_, hold⟩
      · cases hb
      · exact hrun w' j hold
    · intro j hj
      by_cases hji : j = i
      · subst hji
        right; left
        refine ⟨a, r, ha, hr, ?_⟩
        rw [List.getElem?_set]
        simp [hires]
      · rcases hclm j hj with ⟨w', hw'⟩ | ⟨b, r', hb, hr', hres⟩ | ⟨w', e, hw'⟩
        · left
          refine ⟨w', ?_⟩
          rw [List.getElem?_set]
          split <;> rename_i hww
          · subst hww
            rw [hw] at hw'
            cases hw'
            exact absurd rfl hji
          · exact hw'
        · right; left
          refine ⟨b, r', hb, hr', ?_⟩
          rw [List.getElem?_set_ne (Ne.symm hji)]
          exact hres
        · right; right
          refine ⟨w', e, ?_⟩
          rw [List.getElem?_set]
          split <;> rename_i hww
          · subst hww; rw [hw] at hw'; cases hw'
          · exact hw'
    · intro j hj hjn
      have hj' : s.nextIndex ≤ j := hj
      rw [List.getElem?_set_ne]
      · exact huncl j hj' hjn
      · omega
    · intro w' h'
      rcases getElem?_set_cases h' with ⟨_, _, hb⟩ | ⟨_, hold⟩
      · cases hb
      · exact hexc w' hold
    · intro w' e h'
      rcases getElem?_set_cases h' with ⟨_, _, hb⟩ | ⟨_, hold⟩
      · cases hb
      · exact hfr w' e hold
  | completeErr w i a e hw ha hr =>
    have hwlt : w < s.workers.length := (List.getElem?_eq_some.mp hw).1
    refine ⟨by simpa using hwl, hrl, hcl, ?_, ?_, huncl, ?_, ?_⟩
    · intro w' j h'
      rcases getElem?_set_cases h' with ⟨_, _, hb⟩ | ⟨_, hold⟩
      · cases hb
      · exact hrun w' j hold
    · intro j hj
      right; right
      refine ⟨w, e, ?_⟩
      rw [List.getElem?_set]
      simp [hwlt]
    · intro w' h'
      rcases getElem?_set_cases h' with ⟨_, _, hb⟩ | ⟨_, hold⟩
      · cases hb
      · exact hexc w' hold
    · intro w' e' h'
      rcases getElem?_set_cases h' with ⟨_, _, hb⟩ | ⟨_, hold⟩
      · cases hb
        exact ⟨i, a, ha, hr⟩
      · exact hfr w' e' hold

theorem schedInv_reach {T E R : Type} {items : List T} {fn : T → Nat → Except E R}
    {k : Int} {s : SchedState E R} (h : SchedReach items fn k s) :
    SchedInv items fn k s := by
  induction h with
  | refl => exact schedInv_init items fn k
  | tail _ hstep ih => exact schedInv_step ih hstep

theorem allExited_of_mem {E R : Type} {s : SchedState E R} (h : AllExited s)
    {w : Nat} {p : WPhase E R} (hp : s.workers[w]? = some p) : p = WPhase.exited := by
  have hmem : p ∈ s.workers := by
    obtain ⟨hlt, heq⟩ := List.getElem?_eq_some.mp hp
    exact heq ▸ List.getElem_mem hlt
  have hall := List.all_eq_true.mp h p hmem
  cases p <;> simp [WPhase.isExited] at hall ⊢

theorem findSome?_exists {α β : Type} {f : α → Option β} {l : List α} {b : β}
    (h : l.findSome? f = some b) : ∃ a ∈ l, f a = some b := by
  induction l with
  | nil => simp [List.findSome?] at h
  | cons x xs ih =>
    rw [List.findSome?_cons] at h
    cases hfx : f x with
    | some v =>
      rw [hfx] at h
      exact ⟨x, by simp, by rw [hfx]; exact h⟩
    | none =>
      rw [hfx] at h
      obtain ⟨a, ha, hfa⟩ := ih h
      exact ⟨a, by simp [ha], hfa⟩

/-- At a reachable state where Promise.all has resolved (with at least one
worker planned per nonempty input), every task has completed successfully
and its slot holds its value. -/
theorem allExited_complete {T E R : Type} {items : List T} {fn : T → Nat → Except E R}
    {k : Int} {s : SchedState E R} (hk : 1 ≤ k) (hreach : SchedReach items fn k s)
    (hfin : AllExited s) :
    ∀ (i : Nat) (a : T), items[i]? = some a →
      ∃ r, fn a i = .ok r ∧ s.results[i]? = some (some r) := by
  have hinv := schedInv_reach hreach
  intro i a ha
  have hin : i < items.length := (List.getElem?_eq_some.mp ha).1
  have hn : 1 ≤ items.length := by omega
  have hmin : (1 : Int) ≤ min k (items.length : Int) :=
    le_min hk (by exact_mod_cast hn)
  have hw0 : 0 < s.workers.length := by
    rw [hinv.workersLen]
    simp only [numWorkers]
    omega
  obtain ⟨p, hp⟩ : ∃ p, s.workers[0]? = some p :=
    ⟨s.workers[0], List.getElem?_eq_some.mpr ⟨hw0, rfl⟩⟩
  have hp' : s.workers[0]? = some WPhase.exited := (allExited_of_mem hfin hp) ▸ hp
  have hcur : items.length ≤ s.nextIndex := hinv.exitedCursor 0 hp'
  rcases hinv.claimed i (Nat.lt_of_lt_of_le hin hcur) with
    ⟨w, hw⟩ | ⟨b, r, hb, hr, hres⟩ | ⟨w, e, hw⟩
  · exact absurd (allExited_of_mem hfin hw) (by simp)
  · rw [hb] at ha
    cases ha
    exact ⟨r, hr, hres⟩
  · exact absurd (allExited_of_mem hfin hw) (by simp)

/-- Claim C1: for every list of N items, every concurrency cap K ≥ 1, and
every task function f, whenever a mapWithConcurrency run reaches a state
where every launched worker has exited — the exact condition under which
the awaited Promise.all resolves and the scheduler returns — the results
buffer holds exactly N results and slot i holds the output of f(items[i], i),
for every index i, regardless of the order in which the concurrent
invocations completed along the run. -/
theorem mapWithConcurrency_ordered_results {T R : Type} (items : List T)
    (f : T → Nat → R) (k : Int) (hk : 1 ≤ k) (s : SchedState Unit R)
    (hreach : SchedReach items (fun a i => Except.ok (f a i)) k s)
    (hfin : AllExited s) :
    s.results.length = items.length ∧
    ∀ (i : Nat) (a : T), items[i]? = some a → s.results[i]? = some (some (f a i)) := by
  refine ⟨(schedInv_reach hreach).resultsLen, ?_⟩
  intro i a ha
  obtain ⟨r, hr, hres⟩ := allExited_complete hk hreach hfin i a ha
  cases hr
  exact hres

/-- Concrete run of the scheduler on one item with cap 1: claim index 0,
complete it, exit, giving the fully written buffer. -/
theorem mapWithConcurrency_ordered_results_witness :
    ([some 5] : List (Option Nat)).length = [(5 : Nat)].length ∧
    ∀ (i : Nat) (a : Nat), [(5 : Nat)][i]? = some a →
      ([some 5] : List (Option Nat))[i]? = some (some (a + i)) := by
  have h1 : SchedStep [(5 : Nat)] (fun a i => Except.ok (a + i) : Nat → Nat → Except Unit Nat)
      (initState [(5 : Nat)] 1) ⟨1, [WPhase.running 0], [none]⟩ :=
    SchedStep.claim _ 0 rfl (by decide)
  have h2 : SchedStep [(5 : Nat)] (fun a i => Except.ok (a + i) : Nat → Nat → Except Unit Nat)
      ⟨1, [WPhase.running 0], [none]⟩ ⟨1, [WPhase.idle], [some 5]⟩ :=
    SchedStep.completeOk _ 0 0 5 5 rfl rfl rfl
  have h3 : SchedStep [(5 : Nat)] (fun a i => Except.ok (a + i) : Nat → Nat → Except Unit Nat)
      ⟨1, [WPhase.idle], [some 5]⟩ ⟨1, [WPhase.exited], [some 5]⟩ :=
    SchedStep.exit _ 0 rfl (by decide)
  have tr : SchedReach [(5 : Nat)] (fun a i => Except.ok (a + i)) 1
      (⟨1, [WPhase.exited], [some 5]⟩ : SchedState Unit Nat) :=
    Relation.ReflTransGen.tail
      (Relation.ReflTransGen.tail (Relation.ReflTransGen.single h1) h2) h3
  exact mapWithConcurrency_ordered_results [5] (fun a i => a + i) 1 (by decide) _ tr rfl

/-- Claim C3: for every item list and cap K, at every reachable instant of
a mapWithConcurrency run the number of simultaneously in-flight task
invocations is at most min(K, N), the number of launched workers. -/
theorem mapWithConcurrency_concurrency_bound {T E R : Type} (items : List T)
    (fn : T → Nat → Except E R) (k : Int) (s : SchedState E R)
    (hreach : SchedReach items fn k s) :
    inFlight s ≤ (min k (items.length : Int)).toNat := by
  have hinv := schedInv_reach hreach
  calc inFlight s ≤ s.workers.length := List.countP_le_length _
    _ = numWorkers k items.length := hinv.workersLen
    _ = (min k (items.length : Int)).toNat := rfl

/-- The concurrency bound evaluated at the launch state of a three-item
batch with cap 2. -/
theorem mapWithConcurrency_concurrency_bound_witness :
    inFlight (initState [(1 : Nat), 2, 3] 2 : SchedState String Nat) ≤
      (min 2 (([(1 : Nat), 2, 3].length : Int))).toNat :=
  mapWithConcurrency_concurrency_bound [1, 2, 3] (fun a _ => Except.ok a) 2 _
    Relation.ReflTransGen.refl

/-- Claim C10: with a zero or negative cap, Array.from clamps the worker
count to zero, so the run never leaves its initial state: no worker exists,
Promise.all over the empty pool is already resolved, the buffer is the
length-N array with every slot unwritten, and no step (in particular no
invocation of the task function) is possible. -/
theorem mapWithConcurrency_nonpositive_cap {T E R : Type} (items : List T)
    (fn : T → Nat → Except E R) (k : Int) (hk : k ≤ 0) (s : SchedState E R)
    (hreach : SchedReach items fn k s) :
    s = initState items k ∧ s.workers = [] ∧ AllExited s ∧
    s.results = List.replicate items.length none ∧
    ∀ s', ¬ SchedStep items fn s s' := by
  have hnw : numWorkers k items.length = 0 := by
    have hle : min k (items.length : Int) ≤ 0 := le_trans (min_le_left _ _) hk
    simp only [numWorkers]
    omega
  have hwinit : (initState items k : SchedState E R).workers = [] := by
    simp [initState, hnw]
  have hnostep : ∀ s' : SchedState E R, ¬ SchedStep items fn (initState items k) s' := by
    intro s' hstep
    cases hstep with
    | claim w hw h => rw [hwinit] at hw; cases hw
    | exit w hw h => rw [hwinit] at hw; cases hw
    | completeOk w i a r hw ha hr => rw [hwinit] at hw; cases hw
    | completeErr w i a e hw ha hr => rw [hwinit] at hw; cases hw
  have hfix : s = initState items k := by
    induction hreach with
    | refl => rfl
    | tail hr hstep ih =>
      rw [ih] at hstep
      exact absurd hstep (hnostep _)
  subst hfix
  refine ⟨rfl, hwinit, ?_, by simp [initState], hnostep⟩
  rw [AllExited, hwinit]
  rfl

/-- The zero-cap scheduler on one item: the initial state is final, with an
unwritten slot and no possible step. -/
theorem mapWithConcurrency_nonpositive_cap_witness :
    (initState [(7 : Nat)] 0 : SchedState String Nat) = initState [(7 : Nat)] 0 ∧
    (initState [(7 : Nat)] 0 : SchedState String Nat).workers = [] ∧
    AllExited (initState [(7 : Nat)] 0 : SchedState String Nat) ∧
    (initState [(7 : Nat)] 0 : SchedState String Nat).results = List.replicate 1 none ∧
    ∀ s' : SchedState String Nat,
      ¬ SchedStep [(7 : Nat)] ((fun a _ => Except.ok (a + 1)) : Nat → Nat → Except String Nat)
        (initState [(7 : Nat)] 0) s' :=
  mapWithConcurrency_nonpositive_cap [(7 : Nat)] (fun a _ => Except.ok (a + 1)) 0
    (by decide) _ Relation.ReflTransGen.refl

/-- Claim C2: if any single task of a batch fails, then at every state
where the scheduler run (at the controller's cap of 10) has settled, its
overall outcome is a failure that is the error of some task — never the
results buffer — and the batch controller converts it into the single 500
failure answer for the whole batch, not into a 200 answer carrying
results. -/
theorem scheduler_failfast_batch {T : Type} (items : List T)
    (fn : T → Nat → Except String OfferResult) (j : Nat) (a : T) (e : String)
    (ha : items[j]? = some a) (he : fn a j = .error e)
    (s : SchedState String OfferResult)
    (hreach : SchedReach items fn BATCH_CONCURRENCY s)
    (out : Except String (List (Option OfferResult)))
    (hout : schedOutcome s = some out) :
    (∃ msg, out = .error msg ∧
      (∃ (i : Nat) (b : T), items[i]? = some b ∧ fn b i = .error msg) ∧
      ∀ totalMs, respondFromOutcome out totalMs = .serverError msg) ∧
    ∀ totalMs resp, respondFromOutcome out totalMs ≠ ApiResponse.ok resp := by
  rw [schedOutcome] at hout
  split at hout
  · rename_i hall
    exfalso
    have hk : (1 : Int) ≤ BATCH_CONCURRENCY := by decide
    obtain ⟨r, hr, _⟩ := allExited_complete hk hreach hall j a ha
    rw [he] at hr
    cases hr
  · rename_i hall
    cases hff : firstFailure s with
    | none => rw [hff] at hout; exact absurd hout (by simp)
    | some msg =>
      rw [hff] at hout
      have hout' : out = Except.error msg := (Option.some.inj hout).symm
      subst hout'
      simp only [firstFailure] at hff
      obtain ⟨p, hpmem, hpf⟩ := findSome?_exists hff
      cases p with
      | idle => simp at hpf
      | running i => simp at hpf
      | exited => simp at hpf
      | failed e' =>
        have he' : e' = msg := by simpa using hpf
        obtain ⟨w, hwlt, hwe⟩ := List.getElem_of_mem hpmem
        have hw? : s.workers[w]? = some (WPhase.failed msg) :=
          List.getElem?_eq_some.mpr ⟨hwlt, by rw [hwe, he']⟩
        obtain ⟨i, b, hb, hbe⟩ := (schedInv_reach hreach).failedReal w msg hw?
        exact ⟨⟨msg, rfl, ⟨i, b, hb, hbe⟩, fun _ => rfl⟩,
          fun _ _ h => by cases h⟩

/-- A one-item batch whose task rejects: the scheduler settles on the
failure and the controller answers 500. -/
theorem scheduler_failfast_batch_witness :
    (∃ msg, (Except.error "boom" : Except String (List (Option OfferResult))) = .error msg ∧
      (∃ (i : Nat) (b : Nat), [(7 : Nat)][i]? = some b ∧
        (fun _ _ => Except.error "boom" : Nat → Nat → Except String OfferResult) b i = .error msg) ∧
      ∀ totalMs, respondFromOutcome (.error "boom") totalMs = .serverError msg) ∧
    ∀ totalMs resp, respondFromOutcome (.error "boom") totalMs ≠ ApiResponse.ok resp := by
  have h1 : SchedStep [(7 : Nat)] ((fun _ _ => Except.error "boom") : Nat → Nat → Except String OfferResult)
      (initState [(7 : Nat)] BATCH_CONCURRENCY) ⟨1, [WPhase.running 0], [none]⟩ :=
    SchedStep.claim _ 0 rfl (by decide)
  have h2 : SchedStep [(7 : Nat)] ((fun _ _ => Except.error "boom") : Nat → Nat → Except String OfferResult)
      ⟨1, [WPhase.running 0], [none]⟩ ⟨1, [WPhase.failed "boom"], [none]⟩ :=
    SchedStep.completeErr _ 0 0 7 "boom" rfl rfl rfl
  have tr : SchedReach [(7 : Nat)] ((fun _ _ => Except.error "boom") : Nat → Nat → Except String OfferResult)
      BATCH_CONCURRENCY ⟨1, [WPhase.failed "boom"], [none]⟩ :=
    Relation.ReflTransGen.tail (Relation.ReflTransGen.single h1) h2
  exact scheduler_failfast_batch [(7 : Nat)] _ 0 7 "boom" rfl rfl _ tr _ rfl

/-! ## Fence-stripping lemmas -/

theorem dropWhile_idem {α : Type} (p : α → Bool) (l : List α) :
    (l.dropWhile p).dropWhile p = l.dropWhile p := by
  induction l with
  | nil => rfl
  | cons a l ih =>
    rw [List.dropWhile_cons]
    split
    · exact ih
    · rw [List.dropWhile_cons]
      simp_all

theorem trimLeft_idem (l : List Char) :
    trimLeftChars (trimLeftChars l) = trimLeftChars l :=
  dropWhile_idem isJsWs l

theorem trimRight_idem (l : List Char) :
    trimRightChars (trimRightChars l) = trimRightChars l := by
  simp [trimRightChars, dropWhile_idem]

theorem trimRight_append_nonws (y : List Char) (c : Char) (h : isJsWs c = false) :
    trimRightChars (y ++ [c]) = y ++ [c] := by
  simp [trimRightChars, List.reverse_append, List.dropWhile_cons, h]

theorem trimRight_append_ws (y : List Char) (c : Char) (h : isJsWs c = true) :
    trimRightChars (y ++ [c]) = trimRightChars y := by
  simp [trimRightChars, List.reverse_append, List.dropWhile_cons, h]

theorem trimRight_append_fence (y : List Char) :
    trimRightChars (y ++ fenceChars) = y ++ fenceChars := by
  have h : y ++ fenceChars = ((y ++ ['`']) ++ ['`']) ++ ['`'] := by
    simp [fenceChars]
  rw [h, trimRight_append_nonws _ _ (by decide)]

theorem fence_isSuffix_append (y : List Char) :
    fenceChars.isSuffixOf (y ++ fenceChars) = true := by
  simp [List.isSuffixOf, fenceChars, List.reverse_append, List.isPrefixOf]

theorem dropLast3_append_fence (y : List Char) :
    (y ++ fenceChars).dropLast.dropLast.dropLast = y := by
  have h : y ++ fenceChars = ((y ++ ['`']) ++ ['`']) ++ ['`'] := by
    simp [fenceChars]
  rw [h, List.dropLast_concat, List.dropLast_concat, List.dropLast_concat]

/-- Removing the trailing fence: the right-trimmed text ends with the
fence, so the replace removes the fence and the whitespace around it. -/
theorem replaceEndFence_append_fence (y : List Char) :
    replaceEndFence (y ++ '\n' :: fenceChars) = trimRightChars y := by
  have hsplit : y ++ '\n' :: fenceChars = (y ++ ['\n']) ++ fenceChars := by simp
  rw [replaceEndFence, hsplit, trimRight_append_fence, fence_isSuffix_append,
    if_pos rfl, dropLast3_append_fence, trimRight_append_ws _ _ (by decide)]

/-- The anchored leading replace does nothing on text that does not begin
with a fence. -/
theorem replaceStartFence_noop {l : List Char} (h : fenceChars.isPrefixOf l = false) :
    replaceStartFence l = l := by
  simp [replaceStartFence, h]

/-- The trailing replace does nothing when the right-trimmed text does not
end with a fence. -/
theorem replaceEndFence_noop {l : List Char}
    (h : fenceChars.isSuffixOf (trimRightChars l) = false) :
    replaceEndFence l = l := by
  simp [replaceEndFence, h]

/-- Stripping the leading json-tagged fence. -/
theorem replaceStartFence_wrapJson (l : List Char) :
    replaceStartFence ('`' :: '`' :: '`' :: 'j' :: 's' :: 'o' :: 'n' :: '\n' :: l) =
      trimLeftChars l := rfl

/-- Stripping the leading untagged fence. -/
theorem replaceStartFence_wrapBare (l : List Char) :
    replaceStartFence ('`' :: '`' :: '`' :: '\n' :: l) = trimLeftChars l := rfl

theorem trimRight_nil_of_trimLeft_nil {l : List Char} (h : trimLeftChars l = []) :
    trimRightChars l = [] := by
  rw [trimLeftChars, List.dropWhile_eq_nil_iff] at h
  rw [trimRightChars]
  simp only [List.reverse_eq_nil_iff, List.dropWhile_eq_nil_iff]
  intro x hx
  exact h x (List.mem_reverse.mp hx)

/-- Right-trimming a cons: the head survives exactly when something
survives behind it. -/
theorem trimRight_cons (c : Char) (l : List Char) :
    trimRightChars (c :: l) =
      if trimRightChars l = [] then (if isJsWs c then [] else [c])
      else c :: trimRightChars l := by
  have hrw : (c :: l).reverse = l.reverse ++ [c] := by simp
  rw [trimRightChars, hrw, List.dropWhile_append]
  by_cases hnil : trimRightChars l = []
  · have hnil' : l.reverse.dropWhile isJsWs = [] := by
      have := congrArg List.reverse hnil
      simpa [trimRightChars] using this
    rw [hnil']
    simp only [List.isEmpty_nil, if_true, hnil, List.dropWhile_cons]
    by_cases hc : isJsWs c <;> simp [hc]
  · have hnil' : ¬ (l.reverse.dropWhile isJsWs).isEmpty = true := by
      intro hcon
      exact hnil (by simp [trimRightChars, List.isEmpty_iff.mp hcon])
    rw [if_neg hnil', if_neg hnil, List.reverse_append]
    simp [trimRightChars]

/-- Left-trimming first does not change the result of a full trim. -/
theorem trim_three (l : List Char) :
    trimLeftChars (trimRightChars (trimLeftChars l)) =
      trimLeftChars (trimRightChars l) := by
  induction l with
  | nil => rfl
  | cons c l ih =>
    by_cases hc : isJsWs c
    · have h1 : trimLeftChars (c :: l) = trimLeftChars l := by
        simp [trimLeftChars, List.dropWhile_cons, hc]
      rw [h1, ih, trimRight_cons]
      by_cases hnil : trimRightChars l = []
      · simp [hnil, hc, trimLeftChars]
      · rw [if_neg hnil]
        simp [trimLeftChars, List.dropWhile_cons, hc]
    · have h1 : trimLeftChars (c :: l) = c :: l := by
        simp [trimLeftChars, List.dropWhile_cons, hc]
      rw [h1]

/-- Shared core of the two wrapping lemmas: once the leading fence is
stripped, the trailing strip and trim of a fence-free wrapped text agree
with cleaning the bare text. -/
theorem clean_after_startstrip (t : String)
    (h1 : fenceChars.isPrefixOf t.data = false)
    (h2 : fenceChars.isSuffixOf (trimRightChars t.data) = false) :
    String.mk (jsTrimChars (replaceEndFence
      (trimLeftChars (t.data ++ '\n' :: fenceChars)))) = cleanResponse t := by
  rw [cleanResponse, replaceStartFence_noop h1, replaceEndFence_noop h2]
  by_cases hnil : trimLeftChars t.data = []
  · have hL : trimLeftChars (t.data ++ '\n' :: fenceChars) = fenceChars := by
      rw [trimLeftChars, List.dropWhile_append]
      have hemp : (t.data.dropWhile isJsWs).isEmpty = true := by
        rw [trimLeftChars] at hnil
        simp [hnil]
      rw [if_pos hemp]
      rfl
    have hR : trimRightChars t.data = [] := trimRight_nil_of_trimLeft_nil hnil
    have hfe : replaceEndFence fenceChars = ([] : List Char) := by decide
    rw [hL, hfe]
    simp only [jsTrimChars, hR]
    rfl
  · have hL : trimLeftChars (t.data ++ '\n' :: fenceChars) =
        trimLeftChars t.data ++ '\n' :: fenceChars := by
      rw [trimLeftChars, List.dropWhile_append]
      have hemp : ¬ (t.data.dropWhile isJsWs).isEmpty = true := by
        rw [trimLeftChars] at hnil
        simpa using hnil
      rw [if_neg hemp]
      rfl
    rw [hL, replaceEndFence_append_fence]
    simp only [jsTrimChars, trimRight_idem]
    exact congrArg String.mk (trim_three t.data)

/-- Cleaning the json-tagged fenced wrapping of a fence-free text gives the
cleaning of the text itself. -/
theorem clean_wrapJson (t : String)
    (h1 : fenceChars.isPrefixOf t.data = false)
    (h2 : fenceChars.isSuffixOf (trimRightChars t.data) = false) :
    cleanResponse (wrapFenceJson t) = cleanResponse t := by
  have hdata : (wrapFenceJson t).data =
      '`' :: '`' :: '`' :: 'j' :: 's' :: 'o' :: 'n' :: '\n' ::
        (t.data ++ '\n' :: fenceChars) := by
    rw [wrapFenceJson, String.data_append, String.data_append]
    rfl
  rw [cleanResponse, hdata, replaceStartFence_wrapJson]
  exact clean_after_startstrip t h1 h2

/-- Cleaning the untagged fenced wrapping of a fence-free text gives the
cleaning of the text itself. -/
theorem clean_wrapBare (t : String)
    (h1 : fenceChars.isPrefixOf t.data = false)
    (h2 : fenceChars.isSuffixOf (trimRightChars t.data) = false) :
    cleanResponse (wrapFence t) = cleanResponse t := by
  have hdata : (wrapFence t).data =
      '`' :: '`' :: '`' :: '\n' :: (t.data ++ '\n' :: fenceChars) := by
    rw [wrapFence, String.data_append, String.data_append]
    rfl
  rw [cleanResponse, hdata, replaceStartFence_wrapBare]
  exact clean_after_startstrip t h1 h2

/-- Cleaning fence-free text is just trimming it. -/
theorem clean_noFence (t : String)
    (h1 : fenceChars.isPrefixOf t.data = false)
    (h2 : fenceChars.isSuffixOf (trimRightChars t.data) = false) :
    cleanResponse t = jsTrim t := by
  rw [cleanResponse, replaceStartFence_noop h1, replaceEndFence_noop h2, jsTrim]

/-- The record produced by a decode, forgetting failure details. -/
def recordOf : Except DecodeFailure OfferCopy → Option OfferCopy
  | .ok c => some c
  | .error _ => none

/-- The record of a decode depends on the response text only through the
cleaned text. -/
theorem recordOf_decode (t desc : String) :
    recordOf (decodeModelText t desc) =
      (parseJson (cleanResponse t)).bind offerCopySchema := by
  cases hp : parseJson (cleanResponse t) with
  | none => simp [decodeModelText, hp, recordOf]
  | some j =>
    cases hc : offerCopySchema j with
    | none => simp [decodeModelText, hp, hc, recordOf]
    | some c => simp [decodeModelText, hp, hc, recordOf]

/-- Claim C7 (amended): for every response text that is not itself fenced —
it does not begin with a code-fence marker and does not end with one after
trailing whitespace — decoding the text wrapped in a fenced code-block
marker (json-tagged or not) yields the same record as decoding the
unwrapped text, and the fence-stripping step leaves the unwrapped text
untouched up to the trim that decoding performs anyway. Texts that end in a
fence marker of their own are excluded: the counterexample shows the claim
fails on them. -/
theorem fence_strip_decode_agree (t desc : String)
    (h1 : fenceChars.isPrefixOf t.data = false)
    (h2 : fenceChars.isSuffixOf (trimRightChars t.data) = false) :
    cleanResponse (wrapFenceJson t) = cleanResponse t ∧
    cleanResponse (wrapFence t) = cleanResponse t ∧
    cleanResponse t = jsTrim t ∧
    recordOf (decodeModelText (wrapFenceJson t) desc) =
      recordOf (decodeModelText t desc) ∧
    recordOf (decodeModelText (wrapFence t) desc) =
      recordOf (decodeModelText t desc) := by
  refine ⟨clean_wrapJson t h1 h2, clean_wrapBare t h1 h2, clean_noFence t h1 h2, ?_, ?_⟩
  · rw [recordOf_decode, recordOf_decode, clean_wrapJson t h1 h2]
  · rw [recordOf_decode, recordOf_decode, clean_wrapBare t h1 h2]

/-- A well-formed response text exercising the fence-stripping agreement. -/
def plainCopyText : String :=
  "\x7b\"headline\":\"h\",\"subheadline\":null,\"body\":\"b\",\"callToAction\":\"c\",\"legalDisclaimer\":null\x7d"

/-- The fence agreement evaluated on a concrete fence-free response. -/
theorem fence_strip_decode_agree_witness :
    cleanResponse (wrapFenceJson plainCopyText) = cleanResponse plainCopyText ∧
    cleanResponse (wrapFence plainCopyText) = cleanResponse plainCopyText ∧
    cleanResponse plainCopyText = jsTrim plainCopyText ∧
    recordOf (decodeModelText (wrapFenceJson plainCopyText) "d") =
      recordOf (decodeModelText plainCopyText "d") ∧
    recordOf (decodeModelText (wrapFence plainCopyText) "d") =
      recordOf (decodeModelText plainCopyText "d") :=
  fence_strip_decode_agree plainCopyText "d" (by decide) (by decide)

/-- A valid response text that happens to end in a fence marker of its
own. -/
def fenceTailText : String := plainCopyText ++ "```"

/-- Claim C7 counterexample: decoding is not fence-stripping-idempotent for
every response text. For this text, which decodes to a record on its own,
wrapping it in a json-tagged fenced block makes decoding fail, because the
trailing replace removes the outer fence only and the text's own trailing
fence marker survives into JSON.parse. -/
theorem fence_strip_counterexample :
    recordOf (decodeModelText fenceTailText "d") =
      some ⟨"h", none, "b", "c", none⟩ ∧
    recordOf (decodeModelText (wrapFenceJson fenceTailText) "d") = none := by
  constructor
  · rfl
  · rfl

/-! ## Validation claims -/

theorem asString_some {v : JValue} {s : String} :
    asString v = some s ↔ v = JValue.str s := by
  cases v <;> simp [asString]

theorem asNullableString_shape {v : JValue} {o : Option String}
    (h : asNullableString v = some o) :
    v = JValue.null ∨ ∃ s, v = JValue.str s := by
  cases v <;> simp_all [asNullableString]

/-- Claim C4 (amended): validation of a parsed document accepts exactly
when the five named fields are present with the declared types (subheadline
and legalDisclaimer may be an explicit null; headline, body and
callToAction must be present text); a missing required field, a wrong type,
or a renamed field (which leaves the declared name missing) is rejected,
and the rejection is a validation failure distinct from a parse failure.
Unknown extra fields, however, are stripped rather than rejected — zod
objects parse in strip mode — which is the sole correction to the claim
(see the counterexample). -/
theorem offerCopySchema_validation :
    (∀ fields : List (String × JValue),
      (offerCopySchema (JValue.obj fields)).isSome = true ↔
        ((∃ s, lookupLast "headline" fields = some (JValue.str s)) ∧
         (∃ v, lookupLast "subheadline" fields = some v ∧
           (v = JValue.null ∨ ∃ s, v = JValue.str s)) ∧
         (∃ s, lookupLast "body" fields = some (JValue.str s)) ∧
         (∃ s, lookupLast "callToAction" fields = some (JValue.str s)) ∧
         (∃ v, lookupLast "legalDisclaimer" fields = some v ∧
           (v = JValue.null ∨ ∃ s, v = JValue.str s)))) ∧
    (∀ (b : Bool), offerCopySchema (JValue.bool b) = none) ∧
    (∀ s, offerCopySchema (JValue.str s) = none) ∧
    (∀ r, offerCopySchema (JValue.num r) = none) ∧
    (∀ xs, offerCopySchema (JValue.arr xs) = none) ∧
    offerCopySchema JValue.null = none ∧
    (∀ t d, parseJson (cleanResponse t) = none →
      ∃ m, decodeModelText t d = .error (DecodeFailure.invalidJson m)) ∧
    (∀ t d j, parseJson (cleanResponse t) = some j → offerCopySchema j = none →
      decodeModelText t d = .error DecodeFailure.schemaViolation) ∧
    (∀ m, DecodeFailure.invalidJson m ≠ DecodeFailure.schemaViolation) := by
  refine ⟨?_, fun _ => rfl, fun _ => rfl, fun _ => rfl, fun _ => rfl, rfl, ?_, ?_, ?_⟩
  · intro fields
    constructor
    · intro h
      simp only [offerCopySchema] at h
      cases h1 : lookupLast "headline" fields with
      | none => simp [h1] at h
      | some v1 =>
        simp only [h1] at h
        cases hs1 : asString v1 with
        | none => simp [hs1] at h
        | some s1 =>
          simp only [hs1] at h
          cases h2 : lookupLast "subheadline" fields with
          | none => simp [h2] at h
          | some v2 =>
            simp only [h2] at h
            cases hs2 : asNullableString v2 with
            | none => simp [hs2] at h
            | some o2 =>
              simp only [hs2] at h
              cases h3 : lookupLast "body" fields with
              | none => simp [h3] at h
              | some v3 =>
                simp only [h3] at h
                cases hs3 : asString v3 with
                | none => simp [hs3] at h
                | some s3 =>
                  simp only [hs3] at h
                  cases h4 : lookupLast "callToAction" fields with
                  | none => simp [h4] at h
                  | some v4 =>
                    simp only [h4] at h
                    cases hs4 : asString v4 with
                    | none => simp [hs4] at h
                    | some s4 =>
                      simp only [hs4] at h
                      cases h5 : lookupLast "legalDisclaimer" fields with
                      | none => simp [h5] at h
                      | some v5 =>
                        simp only [h5] at h
                        cases hs5 : asNullableString v5 with
                        | none => simp [hs5] at h
                        | some o5 =>
                          exact ⟨⟨s1, by rw [asString_some.mp hs1]⟩,
                            ⟨v2, rfl, asNullableString_shape hs2⟩,
                            ⟨s3, by rw [asString_some.mp hs3]⟩,
                            ⟨s4, by rw [asString_some.mp hs4]⟩,
                            ⟨v5, rfl, asNullableString_shape hs5⟩⟩
    · rintro ⟨⟨s1, h1⟩, ⟨v2, h2, hv2⟩, ⟨s3, h3⟩, ⟨s4, h4⟩, ⟨v5, h5, hv5⟩⟩
      rcases hv2 with h2n | ⟨s2, h2s⟩ <;> rcases hv5 with h5n | ⟨s5, h5s⟩ <;>
        subst_vars <;>
        simp [offerCopySchema, h1, h2, h3, h4, h5, asString, asNullableString]
  · intro t d hp
    exact ⟨"Model returned invalid JSON for offer \"" ++ d.take 60 ++ "…\": " ++ t.take 200,
      by simp [decodeModelText, hp]⟩
  · intro t d j hp hv
    simp [decodeModelText, hp, hv]
  · intro m h
    cases h

/-- A document with the five valid fields plus an extra sixth field. -/
def extraFieldDoc : JValue :=
  JValue.obj [("headline", .str "h"), ("subheadline", .null), ("body", .str "b"),
    ("callToAction", .str "c"), ("legalDisclaimer", .null), ("extraField", .str "x")]

/-- Claim C4 counterexample: a parsed document carrying an extra, unknown
sixth field is accepted by the validation, which strips the field instead
of rejecting the document — so validation does not require exactly the five
named fields. -/
theorem offerCopySchema_extra_field_accepted :
    offerCopySchema extraFieldDoc = some ⟨"h", none, "b", "c", none⟩ := rfl

/-- The validation characterization applied to a concrete well-formed
document. -/
theorem offerCopySchema_validation_witness :
    (offerCopySchema (JValue.obj [("headline", JValue.str "h"),
      ("subheadline", JValue.null), ("body", JValue.str "b"),
      ("callToAction", JValue.str "c"),
      ("legalDisclaimer", JValue.null)])).isSome = true :=
  (offerCopySchema_validation.1 _).mpr
    ⟨⟨"h", rfl⟩, ⟨JValue.null, rfl, Or.inl rfl⟩, ⟨"b", rfl⟩, ⟨"c", rfl⟩,
     ⟨JValue.null, rfl, Or.inl rfl⟩⟩

/-- Validation accepts string payloads of any content for all five fields. -/
theorem offerCopySchema_allStr (h sh b cta ld : String) :
    offerCopySchema (JValue.obj [("headline", .str h), ("subheadline", .str sh),
      ("body", .str b), ("callToAction", .str cta), ("legalDisclaimer", .str ld)]) =
      some ⟨h, some sh, b, cta, some ld⟩ := rfl

/-- Claim C9 (amended): a validated record's headline and call-to-action
are text, but the decoder's validation enforces no length bound on either:
documents whose string fields have any length whatsoever validate
successfully. The declared bounds live only in the prompt instructions sent
to the model, not in the validation. -/
theorem offerCopy_no_length_bounds (h sh b cta ld : String) :
    offerCopySchema (JValue.obj [("headline", .str h), ("subheadline", .str sh),
      ("body", .str b), ("callToAction", .str cta), ("legalDisclaimer", .str ld)]) =
      some ⟨h, some sh, b, cta, some ld⟩ :=
  offerCopySchema_allStr h sh b cta ld

/-- Claim C9 counterexample: no bound exists that the validation enforces
on headline or call-to-action length — for every candidate bound there is
an accepted record whose headline and call-to-action exceed it. -/
theorem offerCopy_length_bound_counterexample :
    ¬ ∃ B : Nat, ∀ (j : JValue) (c : OfferCopy), offerCopySchema j = some c →
        c.headline.length ≤ B ∧ c.callToAction.length ≤ B := by
  rintro ⟨B, hB⟩
  have hlen : (String.mk (List.replicate (B + 1) 'a')).length = B + 1 := by
    simp [String.length]
  obtain ⟨hle, _⟩ := hB _ _ (offerCopySchema_allStr
    (String.mk (List.replicate (B + 1) 'a')) "s" "b"
    (String.mk (List.replicate (B + 1) 'a')) "l")
  rw [hlen] at hle
  omega

/-! ## Batch shape validation (claim C5) -/

theorem tag_mem_OFFER_TYPES (ot : OfferType) : ot.tag ∈ OFFER_TYPES := by
  cases ot <;> simp [OfferType.tag, OFFER_TYPES]

/-- Every input the item schema accepts satisfies the declared bounds. -/
theorem offerInputSchema_bounds {j : JValue} {o : OfferInput}
    (h : offerInputSchema j = some o) :
    o.offerType.tag ∈ OFFER_TYPES ∧
    1 ≤ o.offerDescription.length ∧ o.offerDescription.length ≤ 2000 ∧
    ∀ s, o.existingCopy = some s → s.length ≤ 5000 := by
  cases j with
  | null => simp [offerInputSchema] at h
  | bool b => simp [offerInputSchema] at h
  | num r => simp [offerInputSchema] at h
  | str s => simp [offerInputSchema] at h
  | arr xs => simp [offerInputSchema] at h
  | obj fields =>
    simp only [offerInputSchema] at h
    cases h1 : lookupLast "offerType" fields with
    | none => simp [h1] at h
    | some v1 =>
      cases v1 with
      | str ts =>
        simp only [h1] at h
        cases h2 : parseOfferType ts with
        | none => simp [h2] at h
        | some ot =>
          simp only [h2] at h
          cases h3 : lookupLast "offerDescription" fields with
          | none => simp [h3] at h
          | some v3 =>
            cases v3 with
            | str d =>
              simp only [h3] at h
              split at h
              · rename_i hbound
                cases h4 : lookupLast "existingCopy" fields with
                | none =>
                  simp only [h4] at h
                  cases h
                  exact ⟨tag_mem_OFFER_TYPES ot, hbound.1, hbound.2, by simp⟩
                | some v4 =>
                  cases v4 with
                  | str ec =>
                    simp only [h4] at h
                    split at h
                    · rename_i hec
                      cases h
                      refine ⟨tag_mem_OFFER_TYPES ot, hbound.1, hbound.2, ?_⟩
                      intro s hs
                      cases hs
                      exact hec
                    · cases h
                  | null => simp [h4] at h
                  | bool b => simp [h4] at h
                  | num r => simp [h4] at h
                  | arr xs => simp [h4] at h
                  | obj fs => simp [h4] at h
              · cases h
            | null => simp [h3] at h
            | bool b => simp [h3] at h
            | num r => simp [h3] at h
            | arr xs => simp [h3] at h
            | obj fs => simp [h3] at h
      | null => simp [h1] at h
      | bool b => simp [h1] at h
      | num r => simp [h1] at h
      | arr xs => simp [h1] at h
      | obj fs => simp [h1] at h

/-- Members of a successful mapM all come from a successful item parse. -/
theorem mapM_offerInputSchema_mem {xs : List JValue} {offers : List OfferInput}
    (h : xs.mapM offerInputSchema = some offers) :
    ∀ o ∈ offers, ∃ j ∈ xs, offerInputSchema j = some o := by
  induction xs generalizing offers with
  | nil =>
    simp only [List.mapM_nil] at h
    cases h
    simp
  | cons x xs ih =>
    rw [List.mapM_cons] at h
    cases hx : offerInputSchema x with
    | none => rw [hx] at h; simp at h
    | some y =>
      rw [hx] at h
      cases hxs : xs.mapM offerInputSchema with
      | none => rw [hxs] at h; simp at h
      | some ys =>
        rw [hxs] at h
        simp only [Option.pure_def, Option.bind_some, Option.bind_eq_bind] at h
        have hof : offers = y :: ys := by
          cases h
          rfl
        subst hof
        intro o ho
        rcases List.mem_cons.mp ho with rfl | homem
        · exact ⟨x, by simp, hx⟩
        · obtain ⟨j, hj, hjo⟩ := ih hxs o homem
          exact ⟨j, by simp [hj], hjo⟩

/-- The batch schema only accepts batches of 1 to 50 valid items. -/
theorem offerRequestBodySchema_bounds {body : JValue} {offers : List OfferInput}
    (h : offerRequestBodySchema body = some offers) :
    1 ≤ offers.length ∧ offers.length ≤ 50 ∧
    ∀ o ∈ offers, ∃ j, offerInputSchema j = some o := by
  cases body with
  | null => simp [offerRequestBodySchema] at h
  | bool b => simp [offerRequestBodySchema] at h
  | num r => simp [offerRequestBodySchema] at h
  | str s => simp [offerRequestBodySchema] at h
  | arr xs => simp [offerRequestBodySchema] at h
  | obj fields =>
    simp only [offerRequestBodySchema] at h
    cases h1 : lookupLast "offers" fields with
    | none => simp [h1] at h
    | some v1 =>
      cases v1 with
      | arr xs =>
        simp only [h1] at h
        cases h2 : xs.mapM offerInputSchema with
        | none => rw [h2] at h; simp at h
        | some os =>
          rw [h2] at h
          have h' : (if 1 ≤ os.length ∧ os.length ≤ 50 then some os else none) =
              some offers := h
          split at h'
          · rename_i hlen
            cases h'
            exact ⟨hlen.1, hlen.2, fun o ho =>
              (mapM_offerInputSchema_mem h2 o ho).imp (fun j hj => hj.2)⟩
          · cases h'
      | null => simp [h1] at h
      | bool b => simp [h1] at h
      | num r => simp [h1] at h
      | str s => simp [h1] at h
      | obj fs => simp [h1] at h

/-- A well-formed single offer item document. -/
def itemJ : JValue :=
  JValue.obj [("offerType", .str "discount"), ("offerDescription", .str "d")]

/-- A request body holding n copies of the well-formed item. -/
def mkBatchBody (n : Nat) : JValue :=
  JValue.obj [("offers", .arr (List.replicate n itemJ))]

/-- Claim C5: shape validation runs first — an invalid body is answered
with the bad-request rejection without the batch runner (scheduler and
external calls) being consulted at all; accepted batches have between 1 and
50 items whose fields satisfy their declared bounds (category tag from the
closed 8-tag set, description length 1..2000, optional existing copy at
most 5000); and at the boundaries a 0-item and a 51-item batch are rejected
while 1-item and 50-item batches pass shape validation. -/
theorem batch_shape_validation :
    (∀ (body : JValue) (r₁ r₂ : List OfferInput → Except String (List (Option OfferResult)))
        (t₁ t₂ : Nat), offerRequestBodySchema body = none →
      handleGenerate r₁ t₁ body = ApiResponse.badRequest ∧
      handleGenerate r₁ t₁ body = handleGenerate r₂ t₂ body) ∧
    (∀ body offers, offerRequestBodySchema body = some offers →
      1 ≤ offers.length ∧ offers.length ≤ 50 ∧
      ∀ o ∈ offers, o.offerType.tag ∈ OFFER_TYPES ∧
        1 ≤ o.offerDescription.length ∧ o.offerDescription.length ≤ 2000 ∧
        ∀ s, o.existingCopy = some s → s.length ≤ 5000) ∧
    offerRequestBodySchema (mkBatchBody 0) = none ∧
    offerRequestBodySchema (mkBatchBody 51) = none ∧
    (offerRequestBodySchema (mkBatchBody 1)).isSome = true ∧
    (offerRequestBodySchema (mkBatchBody 50)).isSome = true := by
  refine ⟨?_, ?_, rfl, rfl, rfl, rfl⟩
  · intro body r₁ r₂ t₁ t₂ hnone
    simp [handleGenerate, hnone]
  · intro body offers h
    obtain ⟨h1, h50, hall⟩ := offerRequestBodySchema_bounds h
    refine ⟨h1, h50, fun o ho => ?_⟩
    obtain ⟨j, hj⟩ := hall o ho
    exact offerInputSchema_bounds hj

/-- The handler's rejection of an empty batch, independent of the batch
runner supplied. -/
theorem batch_shape_validation_witness :
    handleGenerate (fun _ => .ok []) 0 (mkBatchBody 0) = ApiResponse.badRequest :=
  (batch_shape_validation.1 (mkBatchBody 0) (fun _ => .ok [])
    (fun _ => .error "x") 0 5 rfl).1

/-! ## Mode derivation and the single deadline-bound attempt -/

theorem existingCopyTruthy_true_iff (o : OfferInput) :
    existingCopyTruthy o = true ↔ ∃ s, o.existingCopy = some s ∧ s ≠ "" := by
  cases hoc : o.existingCopy with
  | none => simp [existingCopyTruthy, hoc]
  | some s => simp [existingCopyTruthy, hoc]

theorem existingCopyTruthy_false_iff (o : OfferInput) :
    existingCopyTruthy o = false ↔
      (o.existingCopy = none ∨ o.existingCopy = some "") := by
  cases hoc : o.existingCopy with
  | none => simp [existingCopyTruthy, hoc]
  | some s => simp [existingCopyTruthy, hoc]

/-- The mode tag a successful task carries, extracted from processOffer. -/
theorem processOffer_ok_mode {buildSys : OfferType → String}
    {gen : GenCall → GenOutcome} {ms : Nat} {o : OfferInput} {r : OfferResult}
    (h : (processOffer buildSys gen ms o).1 = .ok r) :
    r.mode = if existingCopyTruthy o then Mode.modified else Mode.generated := by
  simp only [processOffer] at h
  cases hg : gen (offerCall buildSys o) with
  | timedOut => simp only [hg] at h; cases h
  | failed m => simp only [hg] at h; cases h
  | text t =>
    simp only [hg] at h
    cases hd : decodeModelText t o.offerDescription with
    | error e =>
      cases e with
      | invalidJson m => simp only [hd] at h; cases h
      | schemaViolation => simp only [hd] at h; cases h
    | ok c =>
      simp only [hd] at h
      cases h
      rfl

/-- Claim C6 (amended): a task result's mode is modified exactly when the
existingCopy field is present with a non-empty value, and generated exactly
when the field is absent or present as the empty string — the code branches
on JavaScript truthiness of the field, so an empty existing copy behaves
like an absent one (see the counterexample for the present-but-empty
case). -/
theorem processOffer_mode_derivation (buildSys : OfferType → String)
    (gen : GenCall → GenOutcome) (ms : Nat) (o : OfferInput) (r : OfferResult)
    (h : (processOffer buildSys gen ms o).1 = .ok r) :
    (r.mode = Mode.modified ↔ ∃ s, o.existingCopy = some s ∧ s ≠ "") ∧
    (r.mode = Mode.generated ↔
      (o.existingCopy = none ∨ o.existingCopy = some "")) := by
  have hm := processOffer_ok_mode h
  by_cases ht : existingCopyTruthy o = true
  · rw [ht, if_pos rfl] at hm
    constructor
    · simp [hm, (existingCopyTruthy_true_iff o).mp ht]
    · constructor
      · intro hgen
        rw [hm] at hgen
        cases hgen
      · intro habs
        have : existingCopyTruthy o = false := (existingCopyTruthy_false_iff o).mpr habs
        rw [ht] at this
        cases this
  · have ht' : existingCopyTruthy o = false := by
      cases hb : existingCopyTruthy o
      · rfl
      · exact absurd hb ht
    rw [ht', if_neg (by simp)] at hm
    constructor
    · constructor
      · intro hmod
        rw [hm] at hmod
        cases hmod
      · intro ⟨s, hs, hne⟩
        have : existingCopyTruthy o = true :=
          (existingCopyTruthy_true_iff o).mpr ⟨s, hs, hne⟩
        exact absurd this ht
    · simp [hm, (existingCopyTruthy_false_iff o).mp ht']

/-- The stub generation service answering a fixed well-formed document. -/
def genOkStub : GenCall → GenOutcome := fun _ => .text plainCopyText

/-- An offer whose existingCopy field is present but empty. -/
def offerEmptyCopy : OfferInput := ⟨.discount, "d", some ""⟩

/-- Claim C6 counterexample: the existingCopy field is present on this
offer, yet its task result's mode is generated, because the empty string is
falsy in JavaScript. -/
theorem mode_empty_existingCopy_counterexample :
    offerEmptyCopy.existingCopy = some "" ∧
    (processOffer (fun _ => "sys") genOkStub 0 offerEmptyCopy).1 =
      .ok ⟨.discount, "d", Mode.generated, ⟨"h", none, "b", "c", none⟩, 0⟩ :=
  ⟨rfl, rfl⟩

/-- An offer with a non-empty existing copy. -/
def offerWithCopy : OfferInput := ⟨.discount, "d", some "keep"⟩

/-- The mode derivation applied to a concrete revising task. -/
theorem processOffer_mode_derivation_witness :
    (⟨OfferType.discount, "d", Mode.modified, ⟨"h", none, "b", "c", none⟩, 0⟩ :
      OfferResult).mode = Mode.modified :=
  (processOffer_mode_derivation (fun _ => "sys") genOkStub 0 offerWithCopy
    ⟨OfferType.discount, "d", Mode.modified, ⟨"h", none, "b", "c", none⟩, 0⟩
    rfl).1.mpr ⟨"keep", rfl, by decide⟩

/-- Claim C8: processOffer performs exactly one external generation call
per task — no retry on timeout or on any other failure — and that single
call carries the fixed 5000 ms deadline PER_OFFER_TIMEOUT_MS; when the
external service reports that the deadline was exceeded, the task fails
with the timeout condition instead of blocking. (Cancellation at the
wall-clock deadline itself is the contract of the AbortSignal.timeout
collaborator; the embedding records the deadline attached to the call and
the timeout outcome it can report.) -/
theorem processOffer_single_attempt (buildSys : OfferType → String)
    (gen : GenCall → GenOutcome) (ms : Nat) (o : OfferInput) :
    (processOffer buildSys gen ms o).2 = [offerCall buildSys o] ∧
    (offerCall buildSys o).timeoutMs = PER_OFFER_TIMEOUT_MS ∧
    PER_OFFER_TIMEOUT_MS = 5000 ∧
    (gen (offerCall buildSys o) = .timedOut →
      (processOffer buildSys gen ms o).1 = .error TaskError.timeout) := by
  refine ⟨?_, rfl, rfl, ?_⟩
  · simp only [processOffer]
    cases hg : gen (offerCall buildSys o) with
    | timedOut => rfl
    | failed m => rfl
    | text t =>
      cases hd : decodeModelText t o.offerDescription with
      | error e => cases e <;> simp [hd]
      | ok c => simp [hd]
  · intro hto
    simp [processOffer, hto]

/-- The single-attempt contract on a service that always times out. -/
theorem processOffer_single_attempt_witness :
    (processOffer (fun _ => "sys") (fun _ => GenOutcome.timedOut) 0
      ⟨OfferType.discount, "d", none⟩).1 = .error TaskError.timeout :=
  (processOffer_single_attempt (fun _ => "sys") (fun _ => GenOutcome.timedOut) 0
    ⟨OfferType.discount, "d", none⟩).2.2.2 rfl
